import Mathlib

/-!
Verification of the `Scanner` streaming tokenizer (`src/lib.rs`) against its
natural-language specification.

The embedding models:
  * the buffered reader (`buf_redux::BufReader`, std `BufRead` semantics) as a
    `BufStream`: a fixed baseline capacity, the currently buffered unconsumed
    bytes, and the bytes not yet read from the underlying source;
  * bytes as `Nat` (values used are < 256);
  * a compiled delimiter regex as a `Delim`: its leftmost-match `find`
    function together with the bound every regex engine guarantees
    (`start <= end <= text.length`);
  * `Scanner` itself as a structure holding the stream, the delimiter
    and the numeric radix, with each method of `src/lib.rs` transcribed
    as a state-passing function.
Numeric parsing (`num::Integer::from_str_radix` etc.) is kept abstract as a
function argument, matching the spec's "capability contract" view of it.
-/

/-- Buffered-reader state: `cap` is the buffer capacity chosen at
construction (`BufReader::with_capacity`), `buf` the currently buffered
unconsumed bytes (the window `fill_buf` returns), `src` the bytes of the
underlying source not yet read into the buffer. -/
structure BufStream where
  cap : Nat
  buf : List Nat
  src : List Nat
deriving DecidableEq

namespace BufStream

/-- Models `BufRead::fill_buf` on a `BufReader`: if the buffer still holds
unconsumed bytes they are returned as-is; only an empty buffer triggers a
read from the source, which supplies at most `cap` bytes.  The pure source
never fails, so the `Err` branch of the Rust code is dead here. -/
def fillBuf (st : BufStream) : List Nat × BufStream :=
  if st.buf.isEmpty then
    (st.src.take st.cap,
     { st with buf := st.src.take st.cap, src := st.src.drop st.cap })
  else (st.buf, st)

/-- Models `BufRead::consume(n)`: advances the read position, clamped to the
buffered amount (`List.drop` clamps exactly like `cmp::min(pos + amt, cap)`). -/
def consume (st : BufStream) (n : Nat) : BufStream :=
  { st with buf := st.buf.drop n }

/-- Total number of bytes still reachable from this stream state; the
termination measure for every read loop. -/
def measure (st : BufStream) : Nat :=
  st.buf.length + st.src.length

/-- The logical remaining content of the stream: buffered bytes followed by
unread source bytes.  `fillBuf` only moves bytes between the two parts. -/
def content (st : BufStream) : List Nat :=
  st.buf ++ st.src

theorem fillBuf_buf (st : BufStream) : (st.fillBuf).2.buf = (st.fillBuf).1 := by
  unfold fillBuf
  split <;> simp_all [List.isEmpty_iff]

theorem fillBuf_measure (st : BufStream) : (st.fillBuf).2.measure = st.measure := by
  unfold fillBuf measure
  split <;> simp_all [List.isEmpty_iff]
  omega

theorem fillBuf_content (st : BufStream) : (st.fillBuf).2.content = st.content := by
  unfold fillBuf content
  split <;> simp_all [List.isEmpty_iff]

theorem consume_measure (st : BufStream) (n : Nat) :
    (st.consume n).measure = st.measure - min n st.buf.length := by
  unfold consume measure
  simp
  omega

end BufStream

/-- A UTF-8 continuation byte (`0x80..=0xBF`). -/
def isCont (b : Nat) : Bool := 0x80 ≤ b && b ≤ 0xBF

/-- Models `str::from_utf8(bytes).is_ok()`: standard UTF-8 validation
(RFC 3629 table), rejecting overlong encodings, surrogates and
code points above U+10FFFF, exactly as Rust's validator does. -/
def utf8Valid : List Nat → Bool
  | [] => true
  | b :: rest =>
    if b ≤ 0x7F then utf8Valid rest
    else
      match rest with
      | [] => false
      | c :: rest2 =>
        if 0xC2 ≤ b && b ≤ 0xDF then isCont c && utf8Valid rest2
        else
          match rest2 with
          | [] => false
          | d :: rest3 =>
            if b = 0xE0 then (0xA0 ≤ c && c ≤ 0xBF) && isCont d && utf8Valid rest3
            else if (0xE1 ≤ b && b ≤ 0xEC) || b = 0xEE || b = 0xEF then
              isCont c && isCont d && utf8Valid rest3
            else if b = 0xED then (0x80 ≤ c && c ≤ 0x9F) && isCont d && utf8Valid rest3
            else
              match rest3 with
              | [] => false
              | e :: rest4 =>
                if b = 0xF0 then
                  (0x90 ≤ c && c ≤ 0xBF) && isCont d && isCont e && utf8Valid rest4
                else if 0xF1 ≤ b && b ≤ 0xF3 then
                  isCont c && isCont d && isCont e && utf8Valid rest4
                else if b = 0xF4 then
                  (0x80 ≤ c && c ≤ 0x8F) && isCont d && isCont e && utf8Valid rest4
                else false

/-- A compiled delimiter pattern (`regex::Regex`), abstracted to its
leftmost-match search `Regex::find(text) -> Option<Match>` returning byte
offsets `(start, end)`, together with the bound any regex match satisfies:
`start <= end <= text.length`. -/
structure Delim where
  find : List Nat → Option (Nat × Nat)
  find_le : ∀ bs a b, find bs = some (a, b) → a ≤ b ∧ b ≤ bs.length

/-! ### The default delimiter `\s+`

The scanner's default delimiter is `Regex::new(r"\s+")`.  On ASCII text
(every input exercised here is ASCII) `\s` matches exactly the bytes
space, tab, line feed, vertical tab, form feed and carriage return, and
the leftmost match of `\s+` starts at the first whitespace byte and
extends through the maximal whitespace run from there. -/

/-- ASCII whitespace byte, the ASCII fragment of the regex class `\s`. -/
def isWs (b : Nat) : Bool := b == 32 || b == 9 || b == 10 || b == 11 || b == 12 || b == 13

/-- Length of the maximal whitespace prefix of `l`. -/
def wsRun : List Nat → Nat
  | [] => 0
  | b :: rest => if isWs b then wsRun rest + 1 else 0

/-- Leftmost-match search for `\s+`, tracking the absolute offset `i`. -/
def wsFindAux : List Nat → Nat → Option (Nat × Nat)
  | [], _ => none
  | b :: rest, i => if isWs b then some (i, i + 1 + wsRun rest) else wsFindAux rest (i + 1)

/-- Models `Regex::new(r"\s+").find(text)` on ASCII text. -/
def wsFind (l : List Nat) : Option (Nat × Nat) := wsFindAux l 0

theorem wsRun_le (l : List Nat) : wsRun l ≤ l.length := by
  induction l with
  | nil => simp [wsRun]
  | cons b rest ih => simp only [wsRun, List.length_cons]; split <;> omega

theorem wsFindAux_le (l : List Nat) : ∀ i a b, wsFindAux l i = some (a, b) →
    i ≤ a ∧ a ≤ b ∧ b ≤ i + l.length := by
  induction l with
  | nil => intro i a b h; simp [wsFindAux] at h
  | cons x rest ih =>
    intro i a b h
    simp only [wsFindAux] at h
    split at h
    · have h1 := wsRun_le rest
      simp only [Option.some.injEq, Prod.mk.injEq] at h
      simp only [List.length_cons]
      omega
    · have := ih (i + 1) a b h
      simp only [List.length_cons]
      omega

/-- The default whitespace delimiter of `Scanner::new`. -/
def wsDelim : Delim where
  find := wsFind
  find_le := fun bs a b h => by
    have := wsFindAux_le bs 0 a b h
    omega

/-! ### The delimiter `a+b`

`Scanner::set_delim(Regex::new(r"a+b"))` is used by the cross-buffer
delimiter test.  The leftmost match of `a+b` is located at the first
adjacent pair `ab`; the match starts at the beginning of the contiguous
run of `a`s ending at that pair (the greedy `a+` swallows them all) and
ends just past the `b`. -/

/-- Absolute index of the first adjacent pair `(97, 98)` — bytes `ab`. -/
def abAdj : List Nat → Nat → Option Nat
  | b :: c :: rest, i => if b = 97 ∧ c = 98 then some i else abAdj (c :: rest) (i + 1)
  | _, _ => none

/-- Length of the maximal suffix of `l` consisting solely of byte `97`. -/
def aTail : List Nat → Nat
  | [] => 0
  | b :: rest => if aTail rest = rest.length ∧ b = 97 then rest.length + 1 else aTail rest

/-- Models `Regex::new(r"a+b").find(text)`. -/
def abFind (l : List Nat) : Option (Nat × Nat) :=
  match abAdj l 0 with
  | some j => some (j - aTail (l.take j), j + 2)
  | none => none

theorem abAdj_le (l : List Nat) : ∀ i j, abAdj l i = some j →
    i ≤ j ∧ j + 2 ≤ i + l.length := by
  induction l with
  | nil => intro i j h; simp [abAdj] at h
  | cons x rest ih =>
    intro i j h
    cases rest with
    | nil => simp [abAdj] at h
    | cons y tail =>
      simp only [abAdj] at h
      split at h
      · simp only [Option.some.injEq] at h
        subst h
        simp only [List.length_cons]
        omega
      · have := ih (i + 1) j h
        simp only [List.length_cons] at this ⊢
        omega

/-- The delimiter `a+b` set by the cross-buffer delimiter test. -/
def abDelim : Delim where
  find := abFind
  find_le := fun bs a b h => by
    unfold abFind at h
    cases hj : abAdj bs 0 with
    | none => rw [hj] at h; simp at h
    | some j =>
      rw [hj] at h
      simp only [Option.some.injEq, Prod.mk.injEq] at h
      have := abAdj_le bs 0 j hj
      omega



/-! ### The tokenizer loops of `src/lib.rs` -/

/-- The number of bytes one iteration of `Scanner::consume_leading_delims`
consumes, given the current window `w`: `found.end()` when the delimiter
matches at offset 0, and `0` on a match at a positive offset (the Rust
`return`), on no match, on a UTF-8 decode failure, or on a read error. -/
def cldLen (d : Delim) (w : List Nat) : Nat :=
  if utf8Valid w then
    match d.find w with
    | some ab => if 0 < ab.1 then 0 else ab.2
    | none => 0
  else 0

theorem cldLen_le (d : Delim) (w : List Nat) : cldLen d w ≤ w.length := by
  unfold cldLen
  split
  · cases h : d.find w with
    | none => simp
    | some p =>
      have := d.find_le w p.1 p.2 (by rw [h])
      dsimp only
      split <;> omega
  · omega

/-- Models the loop of `Scanner::consume_leading_delims` (lib.rs 280-308):
repeatedly fill the buffer; while the delimiter matches at the very start
of the window, consume through the match's end; stop (consuming nothing
further) on a match at a positive offset, no match, a decode failure, or
an empty window. -/
def cldStream (d : Delim) (st : BufStream) : BufStream :=
  if _h : cldLen d (st.fillBuf).1 = 0 then (st.fillBuf).2
  else cldStream d ((st.fillBuf).2.consume (cldLen d (st.fillBuf).1))
termination_by st.measure
decreasing_by
  have h1 := cldLen_le d (st.fillBuf).1
  have h2 : (st.fillBuf).2.buf.length = (st.fillBuf).1.length := by
    rw [BufStream.fillBuf_buf]
  have h3 := BufStream.fillBuf_measure st
  have h4 := BufStream.consume_measure (st.fillBuf).2 (cldLen d (st.fillBuf).1)
  have h5 : (st.fillBuf).2.measure = (st.fillBuf).2.buf.length + (st.fillBuf).2.src.length :=
    rfl
  omega

/-- Models the main loop of `Scanner::next` (lib.rs 111-151), carrying the
accumulated token `res`.  Returns `none` on a UTF-8 decode failure of the
window (the early `return None`), otherwise `some` of the accumulated text:
on a delimiter match, text up to the match start is taken and the stream
consumed up to it; on no match the whole window is accumulated and the
loop continues unless the window was empty (end of source). -/
def nextLoop (d : Delim) (st : BufStream) (res : List Nat) :
    Option (List Nat) × BufStream :=
  if utf8Valid (st.fillBuf).1 then
    match d.find (st.fillBuf).1 with
    | some ab => (some (res ++ (st.fillBuf).1.take ab.1), (st.fillBuf).2.consume ab.1)
    | none =>
      if _h : (st.fillBuf).1.length = 0 then
        (some (res ++ (st.fillBuf).1), (st.fillBuf).2.consume (st.fillBuf).1.length)
      else nextLoop d ((st.fillBuf).2.consume (st.fillBuf).1.length) (res ++ (st.fillBuf).1)
  else (none, (st.fillBuf).2)
termination_by st.measure
decreasing_by
  have h2 : (st.fillBuf).2.buf.length = (st.fillBuf).1.length := by
    rw [BufStream.fillBuf_buf]
  have h3 := BufStream.fillBuf_measure st
  have h4 := BufStream.consume_measure (st.fillBuf).2 (st.fillBuf).1.length
  have h5 : (st.fillBuf).2.measure = (st.fillBuf).2.buf.length + (st.fillBuf).2.src.length :=
    rfl
  omega

/-- Models `BufRead::read_until(b'\n', ..)` as used by `read_line` inside
`Scanner::next_line`: repeatedly fill the buffer, append bytes through the
first line feed (consuming them), or the whole window when it holds no
line feed, until the line feed is found or the source is exhausted. -/
def readLineLoop (st : BufStream) (acc : List Nat) : List Nat × BufStream :=
  match (st.fillBuf).1.findIdx? (fun b => b == 10) with
  | some i => (acc ++ (st.fillBuf).1.take (i + 1), (st.fillBuf).2.consume (i + 1))
  | none =>
    if _h : (st.fillBuf).1.length = 0 then (acc, (st.fillBuf).2)
    else readLineLoop ((st.fillBuf).2.consume (st.fillBuf).1.length) (acc ++ (st.fillBuf).1)
termination_by st.measure
decreasing_by
  have h2 : (st.fillBuf).2.buf.length = (st.fillBuf).1.length := by
    rw [BufStream.fillBuf_buf]
  have h3 := BufStream.fillBuf_measure st
  have h4 := BufStream.consume_measure (st.fillBuf).2 (st.fillBuf).1.length
  have h5 : (st.fillBuf).2.measure = (st.fillBuf).2.buf.length + (st.fillBuf).2.src.length :=
    rfl
  omega

/-! ### The `Scanner` itself -/

/-- `Scanner<R>` (lib.rs 21-28): buffered stream, compiled delimiter, radix. -/
structure Scanner where
  stream : BufStream
  delim : Delim
  radix : Nat

/-- `Scanner::new` (lib.rs 84-91): wraps a buffered stream, delimiter `\s+`,
radix 10. -/
def Scanner.new (st : BufStream) : Scanner :=
  { stream := st, delim := wsDelim, radix := 10 }

/-- `BufReader::with_capacity(cap, source)` wrapped into a fresh stream. -/
def BufStream.withCapacity (cap : Nat) (src : List Nat) : BufStream :=
  { cap := cap, buf := [], src := src }

/-- `Scanner::set_delim` (lib.rs 35-39). -/
def Scanner.set_delim (s : Scanner) (d : Delim) : Scanner :=
  { s with delim := d }

/-- `Scanner::get_delim` (lib.rs 57-59). -/
def Scanner.get_delim (s : Scanner) : Delim := s.delim

/-- `Scanner::set_radix` (lib.rs 68-73): store the radix only when
`1 < radix && radix <= 36`; always return the post-state radix. -/
def Scanner.set_radix (s : Scanner) (radix : Nat) : Nat × Scanner :=
  let s' := if 1 < radix ∧ radix ≤ 36 then { s with radix := radix } else s
  (s'.radix, s')

/-- `Scanner::get_radix` (lib.rs 76-78). -/
def Scanner.get_radix (s : Scanner) : Nat := s.radix

/-- `Scanner::consume_leading_delims` (lib.rs 280-308) as a state transform. -/
def Scanner.consume_leading_delims (s : Scanner) : Scanner :=
  { s with stream := cldStream s.delim s.stream }

/-- `Scanner::next` (lib.rs 106-158): skip leading delimiters, run the token
loop, and map an empty accumulated token to `None` (`res.len() > 0` check);
a decode failure from the loop is `None` as well. -/
def Scanner.next (s : Scanner) : Option (List Nat) × Scanner :=
  let s1 := s.consume_leading_delims
  let p := nextLoop s1.delim s1.stream []
  match p.1 with
  | some res => (if 0 < res.length then some res else none, { s1 with stream := p.2 })
  | none => (none, { s1 with stream := p.2 })

/-- `Scanner::next_line` (lib.rs 165-183): `read_line` (which validates the
bytes it read as UTF-8 and reports `Err` otherwise, bytes nonetheless
consumed), then pop one trailing `'\n'` if present; `None` when nothing was
read or on the `Err` branch. -/
def Scanner.next_line (s : Scanner) : Option (List Nat) × Scanner :=
  let p := readLineLoop s.stream []
  let s' : Scanner := { s with stream := p.2 }
  if utf8Valid p.1 then
    match p.1.getLast? with
    | none => (none, s')
    | some b => if b = 10 then (some p.1.dropLast, s') else (some p.1, s')
  else (none, s')

/-- The comma-stripping loop of `next_int`/`next_float` (lib.rs 195-197):
`while let Some(i) = input.rfind(',') { input.remove(i); }` removes every
comma and keeps the rest in order, i.e. it filters out byte 44. -/
def stripCommas (l : List Nat) : List Nat := l.filter (fun b => !(b == 44))

/-- `Scanner::next_int` (lib.rs 191-206) with the numeric capability
`T::from_str_radix` abstracted as `parse : text -> radix -> Option value`:
take the next token, strip commas, parse in the current radix; the token is
consumed whether or not the parse succeeds. -/
def Scanner.next_int {α : Type} (s : Scanner) (parse : List Nat → Nat → Option α) :
    Option α × Scanner :=
  let p := s.next
  match p.1 with
  | some input => (parse (stripCommas input) p.2.radix, p.2)
  | none => (none, p.2)

/-- `Scanner::next_int_radix` (lib.rs 216-228): reject a radix outside
[2, 36] with no state change at all; otherwise temporarily install it,
run `next_int`, and restore the previous radix. -/
def Scanner.next_int_radix {α : Type} (s : Scanner) (parse : List Nat → Nat → Option α)
    (radix : Nat) : Option α × Scanner :=
  if radix < 2 ∨ radix > 36 then (none, s)
  else
    let old_radix := s.radix
    let s1 := (s.set_radix radix).2
    let p := s1.next_int parse
    (p.1, (p.2.set_radix old_radix).2)

/-- `Scanner::next_float` (lib.rs 235-250): textually the same body as
`next_int`, with the float parsing capability abstracted the same way. -/
def Scanner.next_float {α : Type} (s : Scanner) (parse : List Nat → Nat → Option α) :
    Option α × Scanner :=
  let p := s.next
  match p.1 with
  | some input => (parse (stripCommas input) p.2.radix, p.2)
  | none => (none, p.2)

/-- `Scanner::next_float_radix` (lib.rs 260-272): same scheme as
`next_int_radix`. -/
def Scanner.next_float_radix {α : Type} (s : Scanner) (parse : List Nat → Nat → Option α)
    (radix : Nat) : Option α × Scanner :=
  if radix < 2 ∨ radix > 36 then (none, s)
  else
    let old_radix := s.radix
    let s1 := (s.set_radix radix).2
    let p := s1.next_float parse
    (p.1, (p.2.set_radix old_radix).2)

/-- Byte list of an ASCII string (its UTF-8 encoding, all bytes < 128). -/
def asciiBytes (s : String) : List Nat := s.data.map (fun c => c.toNat)

/-! ### Helper lemmas -/

theorem fillBuf_fillBuf (st : BufStream) :
    ((st.fillBuf).2).fillBuf = ((st.fillBuf).1, (st.fillBuf).2) := by
  unfold BufStream.fillBuf
  by_cases h : st.buf.isEmpty
  · simp only [h, if_true]
    by_cases h2 : (st.src.take st.cap).isEmpty
    · rw [List.isEmpty_iff] at h2
      have hc : st.cap = 0 ∨ st.src = [] := by
        rcases Nat.eq_zero_or_pos st.cap with hc | hc
        · exact Or.inl hc
        · cases hs : st.src with
          | nil => exact Or.inr rfl
          | cons x xs =>
            rw [hs] at h2
            cases hcap : st.cap with
            | zero => omega
            | succ n => rw [hcap] at h2; simp [List.take] at h2
      rcases hc with hc | hs
      · simp [hc, h2]
      · simp [hs, h2]
    · simp [h2]
  · simp [h]

theorem cldStream_of_zero (d : Delim) (st : BufStream)
    (h : cldLen d (st.fillBuf).1 = 0) : cldStream d st = (st.fillBuf).2 := by
  rw [cldStream]
  simp [h]

theorem cldStream_fixed (d : Delim) (st : BufStream) :
    cldStream d (cldStream d st) = cldStream d st := by
  induction st using cldStream.induct d with
  | case1 st h =>
    have h2 : cldLen d (((st.fillBuf).2).fillBuf).1 = 0 := by
      rw [fillBuf_fillBuf st]; exact h
    rw [cldStream_of_zero d st h, cldStream_of_zero d _ h2, fillBuf_fillBuf st]
  | case2 st h ih =>
    have estep : cldStream d st
        = cldStream d ((st.fillBuf).2.consume (cldLen d (st.fillBuf).1)) := by
      conv_lhs => rw [cldStream]
      rw [dif_neg h]
    rw [estep]
    exact ih

/-! ### Claim theorems -/

/-- Claim C5: for every radix value `r` and every prior radix state,
`set_radix r` stores `r` exactly when `r` lies in the closed range
`[2, 36]` (otherwise the previous radix is retained, with no error),
and the value returned is always the radix in effect after the call,
the one `get_radix` subsequently observes. -/
theorem set_radix_spec (s : Scanner) (r : Nat) :
    (s.set_radix r).2.get_radix = (if 2 ≤ r ∧ r ≤ 36 then r else s.get_radix)
    ∧ (s.set_radix r).1 = (s.set_radix r).2.get_radix := by
  unfold Scanner.set_radix Scanner.get_radix
  by_cases h : 1 < r ∧ r ≤ 36
  · have h' : 2 ≤ r ∧ r ≤ 36 := by omega
    simp [h, h']
  · have h' : ¬(2 ≤ r ∧ r ≤ 36) := by omega
    simp [h, h']

/-- Claim C6: for every valid explicit radix `r ∈ [2, 36]` and every scanner
state whose persistent radix is itself in `[2, 36]` (the invariant every
reachable state satisfies, since `new` sets 10 and `set_radix` only stores
valid values), the radix observable via `get_radix` after `next_int_radix r`
or `next_float_radix r` equals its value before the call: the explicit-radix
override is scoped and never has a lasting effect. -/
theorem explicit_radix_scoped {α : Type} (pi pf : List Nat → Nat → Option α)
    (s : Scanner) (r : Nat) (hr : 2 ≤ r ∧ r ≤ 36) (hs : 2 ≤ s.radix ∧ s.radix ≤ 36) :
    (s.next_int_radix pi r).2.get_radix = s.get_radix
    ∧ (s.next_float_radix pf r).2.get_radix = s.get_radix := by
  have h1 : ¬(r < 2 ∨ r > 36) := by omega
  have h2 : 1 < s.radix ∧ s.radix ≤ 36 := by omega
  unfold Scanner.next_int_radix Scanner.next_float_radix
  rw [if_neg h1, if_neg h1]
  simp [Scanner.set_radix, Scanner.get_radix, h2]

/-- Witness for C6 at radix 16 on a fresh scanner (radix 10). -/
theorem explicit_radix_scoped_witness :
    ((2 ≤ 16 ∧ 16 ≤ 36)
      ∧ 2 ≤ (Scanner.new (BufStream.withCapacity 4 [])).radix
      ∧ (Scanner.new (BufStream.withCapacity 4 [])).radix ≤ 36)
    ∧ (((Scanner.new (BufStream.withCapacity 4 [])).next_int_radix
          (fun _ _ => (none : Option Unit)) 16).2.get_radix
        = (Scanner.new (BufStream.withCapacity 4 [])).get_radix
      ∧ ((Scanner.new (BufStream.withCapacity 4 [])).next_float_radix
          (fun _ _ => (none : Option Unit)) 16).2.get_radix
        = (Scanner.new (BufStream.withCapacity 4 [])).get_radix) :=
  ⟨⟨by decide, by decide, by decide⟩,
   explicit_radix_scoped _ _ _ 16 (by decide) ⟨by decide, by decide⟩⟩

/-- Claim C7: for every radix `r` outside `[2, 36]`, `next_int_radix r` and
`next_float_radix r` return `None` with the scanner state completely
unchanged — no token is read or consumed, nothing is parsed, and the
persistent radix is untouched, so a later call still sees the same input. -/
theorem invalid_radix_rejected {α : Type} (pi pf : List Nat → Nat → Option α)
    (s : Scanner) (r : Nat) (h : r < 2 ∨ 36 < r) :
    s.next_int_radix pi r = (none, s) ∧ s.next_float_radix pf r = (none, s) := by
  unfold Scanner.next_int_radix Scanner.next_float_radix
  rw [if_pos h, if_pos h]
  exact ⟨rfl, rfl⟩

/-- Witness for C7 at the invalid radix 1. -/
theorem invalid_radix_rejected_witness :
    ((1 : Nat) < 2 ∨ 36 < (1 : Nat))
    ∧ ((Scanner.new (BufStream.withCapacity 16 (asciiBytes "11010"))).next_int_radix
          (fun _ _ => (none : Option Unit)) 1
        = (none, Scanner.new (BufStream.withCapacity 16 (asciiBytes "11010")))
      ∧ (Scanner.new (BufStream.withCapacity 16 (asciiBytes "11010"))).next_float_radix
          (fun _ _ => (none : Option Unit)) 1
        = (none, Scanner.new (BufStream.withCapacity 16 (asciiBytes "11010")))) :=
  ⟨by decide, invalid_radix_rejected _ _ _ 1 (by decide)⟩

/-- Claim C9: skipping leading delimiters is idempotent — for every scanner
state, a second `consume_leading_delims` right after a first one leaves the
state exactly as the first left it, so it consumes nothing further. -/
theorem skip_leading_delims_idempotent (s : Scanner) :
    s.consume_leading_delims.consume_leading_delims = s.consume_leading_delims := by
  unfold Scanner.consume_leading_delims
  simp [cldStream_fixed]

/-- Claim C10: `next` never returns an empty token: for every delimiter and
every stream state, the result is `None` or a token of positive length, so
`Some ""` is unreachable. -/
theorem next_never_empty_token (s : Scanner) :
    (s.next).1 = none ∨ ∃ t, (s.next).1 = some t ∧ 0 < t.length := by
  simp only [Scanner.next]
  cases h : (nextLoop s.consume_leading_delims.delim s.consume_leading_delims.stream []).1 with
  | none => left; simp [h]
  | some res =>
    by_cases hl : 0 < res.length
    · right; exact ⟨res, by simp [h, hl], hl⟩
    · left; simp [h, hl]

/-- Claim C1 (code evaluation at the failing input): with buffer capacity 4,
delimiter `a+b` and input `"aaaabfoo"`, `next()` does NOT return `"foo"` as
the claim and the repository's own test `buffer_ends_within_start_delim`
require: the delimiter straddles the window boundary, each 4-byte window
(`"aaaa"`, then `"bfoo"`) contains no conclusive match, and the code —
which by its own `TODO(hxtk): fix this behavior. See Issue #2` comment
misses delimiters across buffer boundaries — returns the whole input
`"aaaabfoo"` as one token. -/
theorem next_cross_buffer_delim_actual :
    (((Scanner.new (BufStream.withCapacity 4 (asciiBytes "aaaabfoo"))).set_delim abDelim).next).1
      = some (asciiBytes "aaaabfoo") := by
  simp [Scanner.next, Scanner.consume_leading_delims, Scanner.new, Scanner.set_delim,
    BufStream.withCapacity, asciiBytes, cldStream, cldLen, nextLoop, BufStream.fillBuf,
    BufStream.consume, abDelim, abFind, abAdj, aTail, utf8Valid, isCont]

/-- Claim C2: with buffer capacity 4 — smaller than the token — and input
`"hello world"` under the default whitespace delimiter, `next()` still
returns the whole token `"hello"`, accumulating text across the buffer
refill instead of terminating at the first window boundary. -/
theorem next_cross_buffer_token :
    ((Scanner.new (BufStream.withCapacity 4 (asciiBytes "hello world"))).next).1
      = some (asciiBytes "hello") := by
  simp [Scanner.next, Scanner.consume_leading_delims, Scanner.new, BufStream.withCapacity,
    asciiBytes, cldStream, cldLen, nextLoop, BufStream.fillBuf, BufStream.consume,
    wsDelim, wsFind, wsFindAux, wsRun, isWs, utf8Valid, isCont]

/-- Claim C3: on input `"hello,  world"` with the default whitespace
delimiter, `next()` consumes only up to the start of the terminating
delimiter, so it returns `"hello,"` and a following `next_line()` returns
`"  world"` with the whole run of leading spaces preserved. -/
theorem next_then_next_line_trailing_delim :
    ((Scanner.new (BufStream.withCapacity 65536 (asciiBytes "hello,  world"))).next).1
        = some (asciiBytes "hello,")
    ∧ (((Scanner.new (BufStream.withCapacity 65536 (asciiBytes "hello,  world"))).next).2.next_line).1
        = some (asciiBytes "  world") := by
  constructor <;>
  simp [Scanner.next, Scanner.next_line, Scanner.consume_leading_delims, Scanner.new,
    BufStream.withCapacity, asciiBytes, cldStream, cldLen, nextLoop, readLineLoop,
    BufStream.fillBuf, BufStream.consume, wsDelim, wsFind, wsFindAux, wsRun, isWs,
    utf8Valid, isCont, List.take_of_length_le, List.drop_eq_nil_of_le, List.findIdx?]

/-- Claim C4, counterexample: the claim that a decode failure leaves the
entire operation's bytes unconsumed is false when the invalid window is not
the first one: with capacity 2 and source bytes `"ab"` followed by the
invalid byte `0xFF`, `next()` does return `None`, but the first window
`"ab"` was already consumed and its bytes are discarded — the remaining
stream content is `[0xFF]`, not the original three bytes. -/
theorem next_decode_failure_discards_bytes :
    ((Scanner.new (BufStream.withCapacity 2 [97, 98, 255])).next).1 = none
    ∧ ((Scanner.new (BufStream.withCapacity 2 [97, 98, 255])).next).2.stream.content
        ≠ (BufStream.withCapacity 2 [97, 98, 255]).content := by
  constructor <;>
  simp [Scanner.next, Scanner.consume_leading_delims, Scanner.new, BufStream.withCapacity,
    cldStream, cldLen, nextLoop, BufStream.fillBuf, BufStream.consume, BufStream.content,
    wsDelim, wsFind, wsFindAux, wsRun, isWs, utf8Valid, isCont]

/-- Claim C4, amended: when the very first buffered window examined by
`next()` does not decode as UTF-8, the call reports `None` immediately and
no byte is discarded — the remaining stream content is exactly what it was
before the call.  (When the invalid window appears only after earlier
windows were consumed within the same call, `next()` still returns `None`
immediately and leaves the invalid window itself unconsumed, but the bytes
of the earlier windows are not restored, as the counterexample shows.) -/
theorem next_decode_failure_first_window (s : Scanner)
    (h : utf8Valid ((s.stream).fillBuf).1 = false) :
    (s.next).1 = none ∧ (s.next).2.stream.content = s.stream.content := by
  have hcld : cldLen s.delim ((s.stream).fillBuf).1 = 0 := by simp [cldLen, h]
  have hcs : cldStream s.delim s.stream = (s.stream.fillBuf).2 := cldStream_of_zero _ _ hcld
  have hloop : nextLoop s.delim ((s.stream).fillBuf).2 []
      = (none, ((s.stream).fillBuf).2) := by
    rw [nextLoop, fillBuf_fillBuf]
    simp [h]
  constructor
  · simp [Scanner.next, Scanner.consume_leading_delims, hcs, hloop]
  · simp [Scanner.next, Scanner.consume_leading_delims, hcs, hloop, BufStream.fillBuf_content]

/-- Witness for the amended C4 on the one-byte invalid source `[0xFF]`. -/
theorem next_decode_failure_first_window_witness :
    (utf8Valid (((Scanner.new (BufStream.withCapacity 1 [255])).stream).fillBuf).1 = false)
    ∧ (((Scanner.new (BufStream.withCapacity 1 [255])).next).1 = none
       ∧ ((Scanner.new (BufStream.withCapacity 1 [255])).next).2.stream.content
           = (Scanner.new (BufStream.withCapacity 1 [255])).stream.content) :=
  ⟨by decide, next_decode_failure_first_window _ (by decide)⟩

/-- Claim C8: when `next_int` (or `next_float`) obtains a token whose
comma-stripped text fails to parse under the current radix, the call
returns `None` while the token stays consumed: the scanner is left in
exactly the state `next()` produced, so a subsequent `next()` yields the
token after it, never the same text again. -/
theorem parse_failure_token_consumed {α : Type} (pi pf : List Nat → Nat → Option α)
    (s s' : Scanner) (tok : List Nat)
    (hnext : s.next = (some tok, s'))
    (hfi : pi (stripCommas tok) s'.radix = none)
    (hff : pf (stripCommas tok) s'.radix = none) :
    s.next_int pi = (none, s') ∧ s.next_float pf = (none, s') := by
  unfold Scanner.next_int Scanner.next_float
  rw [hnext]
  simp [hfi, hff]

/-- Witness for C8: token `"hi"` with a parser that always fails. -/
theorem parse_failure_token_consumed_witness :
    ((Scanner.new (BufStream.withCapacity 16 (asciiBytes "hi"))).next
        = (some (asciiBytes "hi"), Scanner.new (BufStream.withCapacity 16 []))
      ∧ (fun (_ : List Nat) (_ : Nat) => (none : Option Unit))
          (stripCommas (asciiBytes "hi"))
          (Scanner.new (BufStream.withCapacity 16 [])).radix = none)
    ∧ ((Scanner.new (BufStream.withCapacity 16 (asciiBytes "hi"))).next_int
          (fun _ _ => (none : Option Unit))
        = (none, Scanner.new (BufStream.withCapacity 16 []))
      ∧ (Scanner.new (BufStream.withCapacity 16 (asciiBytes "hi"))).next_float
          (fun _ _ => (none : Option Unit))
        = (none, Scanner.new (BufStream.withCapacity 16 []))) :=
  ⟨⟨by simp [Scanner.next, Scanner.consume_leading_delims, Scanner.new, BufStream.withCapacity,
      asciiBytes, cldStream, cldLen, nextLoop, BufStream.fillBuf, BufStream.consume,
      wsDelim, wsFind, wsFindAux, wsRun, isWs, utf8Valid, isCont], rfl⟩,
   parse_failure_token_consumed (fun _ _ => (none : Option Unit)) (fun _ _ => (none : Option Unit))
     (Scanner.new (BufStream.withCapacity 16 (asciiBytes "hi")))
     (Scanner.new (BufStream.withCapacity 16 []))
     (asciiBytes "hi")
     (by simp [Scanner.next, Scanner.consume_leading_delims, Scanner.new, BufStream.withCapacity,
       asciiBytes, cldStream, cldLen, nextLoop, BufStream.fillBuf, BufStream.consume,
       wsDelim, wsFind, wsFindAux, wsRun, isWs, utf8Valid, isCont]) rfl rfl⟩
